import Mathlib

/-!
Verification of the analytics event-to-record pipeline
(`hooks/analytics.sh`, a Node.js script; final iteration of the file).

The engine receives one JSON lifecycle event per process invocation,
loads per-session state from disk, updates turn/tool state, emits CSV
records, and persists state.  We embed the relevant parts shallowly:

* the CSV layer (`escapeCSV`, `buildCSVRow`, `parseCSVRow`,
  `migrateCSVIfNeeded`) works over `List Char` / `String`;
* the pricing layer (`calculateTokenCost`) uses exact rationals for the
  per-million-token rates;
* the prompt classifier (`categorizePrompt`) models the
  `/\b(alt1|alt2|...)\b/i` regex tests by an executable word-boundary
  substring matcher;
* the event pipeline (`processEvent`) models one fresh process
  invocation per event: persisted per-session state is read from a
  `Store` at the start of the event and written back only where the
  source calls `saveTurnState`.

Timestamps are `Int` (JS epoch milliseconds), token counts are `Nat`,
currency amounts are `ℚ`.
-/

namespace Analytics

/-! ## CSV layer (`escapeCSV`, `buildCSVRow`, `parseCSVRow`) -/

/-- The characters neutralized by the CSV-injection guard:
`/^[=+\-@\t\r]/` in `escapeCSV`. -/
def isFormulaChar (c : Char) : Bool :=
  c = '=' || c = '+' || c = '-' || c = '@' || c = '\t' || c = '\r'

/-- The neutralizing character (an ASCII apostrophe, code 39) that
`escapeCSV` prepends to a value starting with a formula trigger. -/
def apostrophe : Char := Char.ofNat 39

/-- `str = "'" + str` when the first character is a formula trigger
(the first half of `escapeCSV`). -/
def neutralize (s : List Char) : List Char :=
  match s with
  | [] => []
  | c :: _ => if isFormulaChar c then apostrophe :: s else s

/-- `str.replace(/"/g, '""')`: double every embedded quote. -/
def doubleQuotes : List Char → List Char
  | [] => []
  | c :: rest => if c = '"' then '"' :: '"' :: doubleQuotes rest else c :: doubleQuotes rest

/-- Does the value need quote-wrapping
(`str.includes(",") || str.includes('"') || str.includes("\n")`)? -/
def needsQuoting (s : List Char) : Bool :=
  s.contains ',' || s.contains '"' || s.contains '\n'

/-- `escapeCSV` from the source: neutralize a leading formula trigger,
then quote-wrap (with quote doubling) when the value embeds a
delimiter, quote or newline. -/
def escapeCSV (s : List Char) : List Char :=
  let str := neutralize s
  if needsQuoting str then '"' :: (doubleQuotes str ++ ['"']) else str

/-- `buildCSVRow`: escape each value and join with commas. -/
def buildCSVRow (values : List (List Char)) : List Char :=
  List.intercalate [','] (values.map escapeCSV)

/-- The character loop of `parseCSVRow`: `cur` is the field accumulated
so far, `inQ` the `inQuotes` flag.  A quote while in quotes either
doubles (consume two characters, emit one quote) or closes the quoted
region; a comma outside quotes ends the field; every other character is
appended. -/
def parseCSVAux : List Char → List Char → Bool → List (List Char)
  | [], cur, _ => [cur]
  | c :: rest, cur, false =>
    if c = '"' then parseCSVAux rest cur true
    else if c = ',' then cur :: parseCSVAux rest [] false
    else parseCSVAux rest (cur ++ [c]) false
  | c :: rest, cur, true =>
    if c = '"' then
      match rest with
      | c2 :: rest2 =>
        if c2 = '"' then parseCSVAux rest2 (cur ++ ['"']) true
        else parseCSVAux (c2 :: rest2) cur false
      | [] => [cur]
    else parseCSVAux rest (cur ++ [c]) true

/-- `parseCSVRow` from the source: parse one CSV row respecting quoting. -/
def parseCSVRow (l : List Char) : List (List Char) :=
  parseCSVAux l [] false

/-- Inverse of `doubleQuotes`: collapse each doubled quote. -/
def undoubleQuotes : List Char → List Char
  | [] => []
  | [c] => [c]
  | c :: c2 :: rest =>
    if c = '"' ∧ c2 = '"' then '"' :: undoubleQuotes rest
    else c :: undoubleQuotes (c2 :: rest)

/-- Is the serialized field quote-wrapped? -/
def isQuoteWrapped (l : List Char) : Bool :=
  2 ≤ l.length && l.head? = some '"' && l.getLast? = some '"'

/-- Recover the logical field content from its serialized form: strip a
quote wrap (undoubling embedded quotes) if present, otherwise return
the field unchanged. -/
def unwrapField (l : List Char) : List Char :=
  if isQuoteWrapped l then undoubleQuotes (l.drop 1).dropLast else l

/-- Does the value begin with a formula-trigger character? -/
def startsFormula (s : List Char) : Bool :=
  match s with
  | [] => false
  | c :: _ => isFormulaChar c

theorem neutralize_of_not_formula {s : List Char} (h : startsFormula s = false) :
    neutralize s = s := by
  cases s with
  | nil => rfl
  | cons c t =>
    simp only [startsFormula] at h
    simp [neutralize, h]

theorem needsQuoting_false_iff {s : List Char} :
    needsQuoting s = false ↔ ',' ∉ s ∧ '"' ∉ s ∧ '\n' ∉ s := by
  simp [needsQuoting, and_assoc]

theorem parseCSVAux_nil (cur : List Char) (inQ : Bool) :
    parseCSVAux [] cur inQ = [cur] := rfl

theorem parseCSVAux_quote_quote (rest cur : List Char) :
    parseCSVAux ('"' :: '"' :: rest) cur true = parseCSVAux rest (cur ++ ['"']) true := by
  simp [parseCSVAux]

theorem parseCSVAux_quote_other {c : Char} (h : c ≠ '"') (rest cur : List Char) :
    parseCSVAux ('"' :: c :: rest) cur true = parseCSVAux (c :: rest) cur false := by
  simp only [parseCSVAux]
  simp [h]

theorem parseCSVAux_quote_end (cur : List Char) :
    parseCSVAux ['"'] cur true = [cur] := by
  simp [parseCSVAux]

theorem parseCSVAux_quote_open (rest cur : List Char) :
    parseCSVAux ('"' :: rest) cur false = parseCSVAux rest cur true := by
  simp [parseCSVAux]

theorem parseCSVAux_comma_out (rest cur : List Char) :
    parseCSVAux (',' :: rest) cur false = cur :: parseCSVAux rest [] false := by
  simp [parseCSVAux]

theorem parseCSVAux_comma_in (rest cur : List Char) :
    parseCSVAux (',' :: rest) cur true = parseCSVAux rest (cur ++ [',']) true := by
  cases rest <;> rfl

theorem parseCSVAux_other {c : Char} (h1 : c ≠ '"') (h2 : c ≠ ',')
    (rest cur : List Char) (inQ : Bool) :
    parseCSVAux (c :: rest) cur inQ = parseCSVAux rest (cur ++ [c]) inQ := by
  cases inQ
  · simp [parseCSVAux, h1, h2]
  · cases rest with
    | nil => simp [parseCSVAux, h1]
    | cons c2 rest2 => simp [parseCSVAux, h1]

theorem parseCSVAux_plain {v : List Char} (h : ∀ c ∈ v, c ≠ '"' ∧ c ≠ ',') :
    ∀ s cur, parseCSVAux (v ++ s) cur false = parseCSVAux s (cur ++ v) false := by
  induction v with
  | nil => intro s cur; simp
  | cons c v ih =>
    intro s cur
    obtain ⟨hc1, hc2⟩ := h c (by simp)
    rw [List.cons_append, parseCSVAux_other hc1 hc2]
    rw [ih (fun c hc => h c (by simp [hc]))]
    simp

theorem parseCSVAux_quoted (v : List Char) :
    ∀ s cur, (s = [] ∨ ∃ t, s = ',' :: t) →
    parseCSVAux (doubleQuotes v ++ '"' :: s) cur true = parseCSVAux s (cur ++ v) false := by
  induction v with
  | nil =>
    intro s cur hs
    rcases hs with rfl | ⟨t, rfl⟩
    · simp [doubleQuotes, parseCSVAux_quote_end, parseCSVAux_nil]
    · simp only [doubleQuotes, List.nil_append]
      rw [parseCSVAux_quote_other (by decide) t cur]
      simp
  | cons c v ih =>
    intro s cur hs
    by_cases hc : c = '"'
    · subst hc
      simp only [doubleQuotes, if_pos rfl, ite_true, List.cons_append]
      rw [parseCSVAux_quote_quote]
      rw [ih s (cur ++ ['"']) hs]
      simp
    · simp only [doubleQuotes, if_neg hc, List.cons_append]
      by_cases hcc : c = ','
      · subst hcc
        rw [parseCSVAux_comma_in]
        have := ih s (cur ++ [',']) hs
        simpa using this
      · rw [parseCSVAux_other hc hcc]
        have := ih s (cur ++ [c]) hs
        simpa using this

theorem buildCSVRow_single (v : List Char) : buildCSVRow [v] = escapeCSV v := by
  simp [buildCSVRow, List.intercalate]

theorem buildCSVRow_cons (v w : List Char) (vs : List (List Char)) :
    buildCSVRow (v :: w :: vs) = escapeCSV v ++ ',' :: buildCSVRow (w :: vs) := by
  simp [buildCSVRow, List.intercalate, List.intersperse]

theorem parse_field (v : List Char) (hv : startsFormula v = false) (rest : List Char) :
    parseCSVAux (escapeCSV v ++ ',' :: rest) [] false = v :: parseCSVAux rest [] false := by
  unfold escapeCSV
  rw [neutralize_of_not_formula hv]
  by_cases hq : needsQuoting v
  · simp only [hq, if_true]
    have : ('"' :: (doubleQuotes v ++ ['"'])) ++ ',' :: rest
        = '"' :: (doubleQuotes v ++ '"' :: (',' :: rest)) := by simp
    rw [this, parseCSVAux_quote_open]
    rw [parseCSVAux_quoted v (',' :: rest) [] (Or.inr ⟨rest, rfl⟩)]
    rw [parseCSVAux_comma_out]
    simp
  · simp only [hq]
    rw [if_neg (by simp [hq])]
    have hnot : ∀ c ∈ v, c ≠ '"' ∧ c ≠ ',' := by
      rw [Bool.not_eq_true] at hq
      rw [needsQuoting_false_iff] at hq
      intro c hc
      exact ⟨fun h => hq.2.1 (h ▸ hc), fun h => hq.1 (h ▸ hc)⟩
    rw [parseCSVAux_plain hnot (',' :: rest) []]
    rw [parseCSVAux_comma_out]
    simp

theorem parse_field_last (v : List Char) (hv : startsFormula v = false) :
    parseCSVAux (escapeCSV v) [] false = [v] := by
  unfold escapeCSV
  rw [neutralize_of_not_formula hv]
  by_cases hq : needsQuoting v
  · simp only [hq, if_true]
    have : '"' :: (doubleQuotes v ++ ['"']) = '"' :: (doubleQuotes v ++ '"' :: []) := by simp
    rw [this, parseCSVAux_quote_open]
    rw [parseCSVAux_quoted v [] [] (Or.inl rfl)]
    simp [parseCSVAux_nil]
  · simp only [hq]
    rw [if_neg (by simp [hq])]
    have hnot : ∀ c ∈ v, c ≠ '"' ∧ c ≠ ',' := by
      rw [Bool.not_eq_true] at hq
      rw [needsQuoting_false_iff] at hq
      intro c hc
      exact ⟨fun h => hq.2.1 (h ▸ hc), fun h => hq.1 (h ▸ hc)⟩
    have := parseCSVAux_plain hnot [] []
    simpa [parseCSVAux_nil] using this

theorem undoubleQuotes_cons_ne {c : Char} (h : c ≠ '"') (l : List Char) :
    undoubleQuotes (c :: l) = c :: undoubleQuotes l := by
  cases l with
  | nil => rfl
  | cons d rest => simp [undoubleQuotes, h]

theorem undouble_double (v : List Char) : undoubleQuotes (doubleQuotes v) = v := by
  induction v with
  | nil => rfl
  | cons c v ih =>
    by_cases hc : c = '"'
    · subst hc
      simp [doubleQuotes, undoubleQuotes, ih]
    · simp only [doubleQuotes, if_neg hc]
      rw [undoubleQuotes_cons_ne hc, ih]

theorem isQuoteWrapped_wrap (w : List Char) :
    isQuoteWrapped ('"' :: (w ++ ['"'])) = true := by
  have h1 : ('"' :: (w ++ ['"'])).getLast? = some '"' := by
    rw [show ('"' :: (w ++ ['"'])) = ('"' :: w) ++ ['"'] by simp, List.getLast?_concat]
  simp [isQuoteWrapped, h1]

theorem unwrapField_wrap (w : List Char) :
    unwrapField ('"' :: (w ++ ['"'])) = undoubleQuotes w := by
  simp only [unwrapField, isQuoteWrapped_wrap w, if_pos, ite_true, List.drop_one,
    List.tail_cons]
  rw [List.dropLast_concat]

theorem needsQuoting_of_mem {c : Char} {s : List Char}
    (hc : c = ',' ∨ c = '"' ∨ c = '\n') (h : c ∈ s) : needsQuoting s = true := by
  simp [needsQuoting]
  rcases hc with rfl | rfl | rfl <;> tauto

theorem mem_neutralize_of_mem {c : Char} {s : List Char} (h : c ∈ s) :
    c ∈ neutralize s := by
  cases s with
  | nil => simp at h
  | cons d t =>
    simp only [neutralize]
    split
    · exact List.mem_cons_of_mem _ h
    · exact h

/-- C8: a value beginning with the formula-trigger character `=` is
stored prefixed with the neutralizing apostrophe (recovering the stored
field yields `'` followed by the original value), and a value containing
a comma, an embedded quote, or a newline is quote-wrapped, the wrapped
content undoubling back to the neutralized value. -/
theorem claim_C8_escape_discipline (v : List Char) :
    (v.head? = some '=' → unwrapField (escapeCSV v) = apostrophe :: v) ∧
    ((',' ∈ v ∨ '"' ∈ v ∨ '\n' ∈ v) →
      isQuoteWrapped (escapeCSV v) = true ∧ unwrapField (escapeCSV v) = neutralize v) :=
  by
  constructor
  · intro hv
    cases v with
    | nil => simp at hv
    | cons c t =>
      simp only [List.head?_cons, Option.some.injEq] at hv
      subst hv
      have hn : neutralize ('=' :: t) = apostrophe :: '=' :: t := by
        simp [neutralize, isFormulaChar]
      unfold escapeCSV
      rw [hn]
      by_cases hq : needsQuoting (apostrophe :: '=' :: t)
      · simp only [hq, if_true, ite_true]
        rw [show ('"' :: (doubleQuotes (apostrophe :: '=' :: t) ++ ['"']))
              = '"' :: (doubleQuotes (apostrophe :: '=' :: t) ++ ['"']) from rfl]
        rw [unwrapField_wrap, undouble_double]
      · simp only [hq]
        rw [if_neg (by simp [hq])]
        have : isQuoteWrapped (apostrophe :: '=' :: t) = false := by
          simp [isQuoteWrapped, apostrophe]
        simp [unwrapField, this]
  · intro hv
    have hq : needsQuoting (neutralize v) = true := by
      rcases hv with h | h | h
      · exact needsQuoting_of_mem (Or.inl rfl) (mem_neutralize_of_mem h)
      · exact needsQuoting_of_mem (Or.inr (Or.inl rfl)) (mem_neutralize_of_mem h)
      · exact needsQuoting_of_mem (Or.inr (Or.inr rfl)) (mem_neutralize_of_mem h)
    unfold escapeCSV
    simp only [hq, if_true, ite_true]
    exact ⟨isQuoteWrapped_wrap _, by rw [unwrapField_wrap, undouble_double]⟩

/-- Witness for C8 at `"=1"` (leading formula trigger) and `"a,b"`
(embedded comma). -/
theorem claim_C8_escape_discipline_witness :
    unwrapField (escapeCSV ['=', '1']) = apostrophe :: ['=', '1'] ∧
    (isQuoteWrapped (escapeCSV ['a', ',', 'b']) = true ∧
      unwrapField (escapeCSV ['a', ',', 'b']) = neutralize ['a', ',', 'b']) :=
  ⟨(claim_C8_escape_discipline ['=', '1']).1 (by decide),
   (claim_C8_escape_discipline ['a', ',', 'b']).2 (Or.inl (by decide))⟩

/-- C10: for a non-empty list of values none of which begins with a
formula-trigger character, parsing the built row recovers exactly the
original values, embedded commas, quotes and newlines included. -/
theorem claim_C10_parse_build_roundtrip (values : List (List Char))
    (hne : values ≠ [])
    (hform : ∀ v ∈ values, startsFormula v = false) :
    parseCSVRow (buildCSVRow values) = values := by
  induction values with
  | nil => exact absurd rfl hne
  | cons v vs ih =>
    cases vs with
    | nil =>
      rw [buildCSVRow_single]
      exact parse_field_last v (hform v (by simp))
    | cons w ws =>
      rw [buildCSVRow_cons]
      unfold parseCSVRow
      rw [parse_field v (hform v (by simp)) (buildCSVRow (w :: ws))]
      have hrec := ih (by simp) (fun u hu => hform u (by simp [hu]))
      unfold parseCSVRow at hrec
      rw [hrec]

/-- Witness for C10 at a concrete list containing an embedded comma, an
embedded quote, and an embedded newline. -/
theorem claim_C10_parse_build_roundtrip_witness :
    parseCSVRow (buildCSVRow [['a', ',', 'b'], ['x', '"', 'y'], ['l', '\n', 'm'], ['p']])
      = [['a', ',', 'b'], ['x', '"', 'y'], ['l', '\n', 'm'], ['p']] :=
  claim_C10_parse_build_roundtrip _ (by decide) (by decide)

/-! ## Ledger schema migration (`migrateCSVIfNeeded`) -/

/-- The whitespace characters recognized by the `line.trim()` truthiness
filter over the split file content (ASCII subset of JS whitespace). -/
def isJSSpace (c : Char) : Bool :=
  c = ' ' || c = '\t' || c = '\n' || c = '\r' || c = Char.ofNat 11 || c = Char.ofNat 12

/-- `filter(line => line.trim())` keeps a line iff it has a
non-whitespace character. -/
def keepLine (l : List Char) : Bool :=
  l.any (fun c => !isJSSpace c)

/-- JS `Array.prototype.indexOf`: first index of the value, `none`
standing for `-1`. -/
def jsIndexOf (l : List (List Char)) (x : List Char) : Option Nat :=
  l.findIdx? (· = x)

/-- One row of the migration: for every column of the new header, take
the old row's value at that column's first position in the old header
(`oldValues[oldIndex] || ""`), or the empty value when the old header
lacks the column (`oldIndex = -1`). -/
def migrateRowValues (oldColumns newColumns : List (List Char))
    (oldValues : List (List Char)) : List (List Char) :=
  newColumns.map (fun newCol =>
    match jsIndexOf oldColumns newCol with
    | some i => oldValues.getD i []
    | none => [])

/-- Outcome of `migrateCSVIfNeeded` (file writes reified). -/
inductive MigrateResult where
  | noChange
  | emptyRewrite
  | migrated (backup : List (List Char)) (newLines : List (List Char))
deriving DecidableEq

/-- `migrateCSVIfNeeded` from the source, over the file content already
split on newlines: drop blank lines; an empty file just gets the header;
a matching header needs no migration; otherwise back up the original
content and rewrite under the new header, remapping every data row by
column name. -/
def migrateCSVIfNeeded (rawLines : List (List Char)) (expectedHeader : List Char) :
    MigrateResult :=
  match rawLines.filter keepLine with
  | [] => .emptyRewrite
  | existingHeader :: rest =>
    if existingHeader = expectedHeader then .noChange
    else
      let oldColumns := parseCSVRow existingHeader
      let newColumns := parseCSVRow expectedHeader
      .migrated rawLines
        (expectedHeader ::
          rest.map (fun line =>
            buildCSVRow (migrateRowValues oldColumns newColumns (parseCSVRow line))))

theorem jsIndexOf_some {l : List (List Char)} {x : List Char} {i : Nat}
    (h : jsIndexOf l x = some i) : i < l.length ∧ l.getD i [] = x := by
  rw [jsIndexOf, List.findIdx?_eq_some_iff_getElem] at h
  obtain ⟨hlt, h1, _⟩ := h
  refine ⟨hlt, ?_⟩
  rw [List.getD_eq_getElem l [] hlt]
  simpa using h1

theorem jsIndexOf_none {l : List (List Char)} {x : List Char}
    (h : jsIndexOf l x = none) : x ∉ l := by
  rw [jsIndexOf, List.findIdx?_eq_none_iff] at h
  intro hx
  have := h x hx
  simp at this

/-- C7: initializing against a log file whose header differs from the
expected header backs up the original content and rewrites the file:
the new first line is the expected header, the data row count equals the
original's, and every migrated row takes, for each new column, the value
of the same-named old column — empty when the old schema lacks the
column, old columns absent from the new schema being discarded. -/
theorem claim_C7_migration (rawLines : List (List Char))
    (expectedHeader existingHeader : List Char) (rest : List (List Char))
    (hsplit : rawLines.filter keepLine = existingHeader :: rest)
    (hdiff : existingHeader ≠ expectedHeader) :
    (migrateCSVIfNeeded rawLines expectedHeader = .migrated rawLines
      (expectedHeader ::
        rest.map (fun line =>
          buildCSVRow (migrateRowValues (parseCSVRow existingHeader)
            (parseCSVRow expectedHeader) (parseCSVRow line))))) ∧
    (expectedHeader ::
        rest.map (fun line =>
          buildCSVRow (migrateRowValues (parseCSVRow existingHeader)
            (parseCSVRow expectedHeader) (parseCSVRow line)))).length
      = (rawLines.filter keepLine).length ∧
    (∀ oldVals : List (List Char),
      (migrateRowValues (parseCSVRow existingHeader) (parseCSVRow expectedHeader)
          oldVals).length = (parseCSVRow expectedHeader).length ∧
      ∀ j : Nat, j < (parseCSVRow expectedHeader).length →
        (∀ i : Nat,
          jsIndexOf (parseCSVRow existingHeader)
              ((parseCSVRow expectedHeader).getD j []) = some i →
          (parseCSVRow existingHeader).getD i []
              = (parseCSVRow expectedHeader).getD j [] ∧
          (migrateRowValues (parseCSVRow existingHeader) (parseCSVRow expectedHeader)
              oldVals).getD j [] = oldVals.getD i []) ∧
        (((parseCSVRow expectedHeader).getD j []) ∉ parseCSVRow existingHeader →
          (migrateRowValues (parseCSVRow existingHeader) (parseCSVRow expectedHeader)
              oldVals).getD j [] = [])) := by
  refine ⟨?_, ?_, ?_⟩
  · unfold migrateCSVIfNeeded
    rw [hsplit]
    simp [hdiff]
  · rw [hsplit]
    simp
  · intro oldVals
    constructor
    · simp [migrateRowValues]
    · intro j hj
      have hgd : (migrateRowValues (parseCSVRow existingHeader)
          (parseCSVRow expectedHeader) oldVals).getD j []
          = (match jsIndexOf (parseCSVRow existingHeader)
              ((parseCSVRow expectedHeader).getD j []) with
            | some i => oldVals.getD i []
            | none => []) := by
        unfold migrateRowValues
        rw [List.getD_eq_getElem _ _ (by simpa [migrateRowValues] using hj),
          List.getElem_map, List.getD_eq_getElem _ _ hj]
      constructor
      · intro i hfind
        refine ⟨(jsIndexOf_some hfind).2, ?_⟩
        rw [hgd, hfind]
      · intro hnot
        have hfind : jsIndexOf (parseCSVRow existingHeader)
            ((parseCSVRow expectedHeader).getD j []) = none := by
          cases hcase : jsIndexOf (parseCSVRow existingHeader)
              ((parseCSVRow expectedHeader).getD j []) with
          | none => rfl
          | some i =>
            obtain ⟨hlt, hget⟩ := jsIndexOf_some hcase
            have hmem : (parseCSVRow existingHeader).getD i []
                ∈ parseCSVRow existingHeader := by
              rw [List.getD_eq_getElem _ _ hlt]
              exact List.getElem_mem hlt
            exact absurd (hget ▸ hmem) hnot
        rw [hgd, hfind]

/-- Witness for C7: a file with header `a,b` and data rows `1,2` and
`x,y` (plus a blank line), migrated to header `b,c`, is backed up and
rewritten as `b,c` / `2,` / `y,` — two data rows in, two out. -/
theorem claim_C7_migration_witness :
    migrateCSVIfNeeded [['a', ',', 'b'], ['1', ',', '2'], [], ['x', ',', 'y']]
        ['b', ',', 'c']
      = .migrated [['a', ',', 'b'], ['1', ',', '2'], [], ['x', ',', 'y']]
          [['b', ',', 'c'], ['2', ','], ['y', ',']] := by
  have h := (claim_C7_migration [['a', ',', 'b'], ['1', ',', '2'], [], ['x', ',', 'y']]
      ['b', ',', 'c'] ['a', ',', 'b'] [['1', ',', '2'], ['x', ',', 'y']]
      (by decide) (by decide)).1
  rw [h]
  decide

/-! ## Event classifier (`PROMPT_PATTERNS`, `categorizePrompt`)

Each pattern in the source is a regex of the form `/\b(a1|a2|…)\b/i`
whose alternatives all begin and end with word characters; `.test`
succeeds iff some alternative occurs in the text (case-insensitively)
with a word boundary on each side.  We model that directly: an
alternative matches at a position iff it is a literal prefix of the
lowercased text there, the preceding character (if any) is not a word
character, and the following character (if any) is not a word
character. -/

/-- A word character for `\b`: `[A-Za-z0-9_]`. -/
def isWordChar (c : Char) : Bool :=
  ('a' ≤ c && c ≤ 'z') || ('A' ≤ c && c ≤ 'Z') || ('0' ≤ c && c ≤ '9') || c = '_'

/-- ASCII lowercasing, modeling the `/i` flag. -/
def lowerChar (c : Char) : Char :=
  if 'A' ≤ c && c ≤ 'Z' then Char.ofNat (c.toNat + 32) else c

/-- Does the alternative match literally at the head of `l`, with a word
boundary after it? -/
def altMatchesHere (alt : List Char) (l : List Char) : Bool :=
  List.isPrefixOf alt l &&
    (match (l.drop alt.length).head? with
     | none => true
     | some c => !isWordChar c)

/-- Is the position after `prev` a word boundary (for alternatives that
begin with a word character)? -/
def boundaryPrev : Option Char → Bool
  | none => true
  | some p => !isWordChar p

/-- Scan the text for a boundary-delimited occurrence of some
alternative. -/
def scanWordAlts (alts : List (List Char)) : Option Char → List Char → Bool
  | _, [] => false
  | prev, c :: rest =>
    (boundaryPrev prev && alts.any (fun alt => altMatchesHere alt (c :: rest)))
      || scanWordAlts alts (some c) rest

/-- `PATTERN.test(text)` for a `/\b(a1|a2|…)\b/i` pattern. -/
def testWordPattern (alts : List String) (text : String) : Bool :=
  scanWordAlts (alts.map (fun a => a.data)) none (text.data.map lowerChar)

/-- `PROMPT_PATTERNS.featureDev`. -/
def featureDevAlts : List String :=
  ["add", "create", "implement", "build", "new feature", "develop",
   "initialise", "initialize"]

/-- `PROMPT_PATTERNS.bugFix` (`doesn't work` spelled via the apostrophe
character). -/
def bugFixAlts : List String :=
  ["fix", "bug", "error", "issue", "broken", "not working",
   "doesn" ++ apostrophe.toString ++ "t work", "doesnt work"]

/-- `PROMPT_PATTERNS.testing`. -/
def testingAlts : List String :=
  ["test", "testing", "spec", "unit test", "integration test", "e2e",
   "verify", "validate", "behaviour", "behavior"]

/-- `PROMPT_PATTERNS.refactoring`. -/
def refactoringAlts : List String :=
  ["refactor", "cleanup", "clean up", "reorganize", "reorganise",
   "restructure", "improve", "optimize", "optimise"]

/-- `PROMPT_PATTERNS.documentation`. -/
def documentationAlts : List String :=
  ["document", "documentation", "comment", "readme", "docs", "explain",
   "describe", "summarise", "summarize"]

/-- `PROMPT_PATTERNS.codeUnderstanding`. -/
def codeUnderstandingAlts : List String :=
  ["what", "how", "why", "where", "when", "explain", "understand",
   "show me", "tell me", "can you", "could you", "would you", "find",
   "analyse", "analyze"]

/-- `PROMPT_PATTERNS.explanation`. -/
def explanationAlts : List String :=
  ["how does", "how is", "explain", "understand"]

/-- `PROMPT_PATTERNS.navigation`. -/
def navigationAlts : List String :=
  ["find", "search", "where", "locate"]

/-- `PROMPT_PATTERNS.debugging`. -/
def debuggingAlts : List String :=
  ["debug", "debugger", "breakpoint", "trace", "inspect", "investigate",
   "troubleshoot"]

/-- `PROMPT_PATTERNS.codeReview`. -/
def codeReviewAlts : List String :=
  ["review", "check", "verify", "validate", "look at", "examine",
   "analyse", "analyze"]

/-- `PROMPT_PATTERNS.configuration`. -/
def configurationAlts : List String :=
  ["config", "configure", "setup", "set up", "install", "deploy",
   "initialise", "initialize"]

/-- `PROMPT_PATTERNS.versionControl`. -/
def versionControlAlts : List String :=
  ["commit", "push", "pull", "merge", "branch", "git", "pr",
   "pull request", "rebase"]

/-- `categorizePrompt` from the source: ordered first-match-wins
classification into (category, subcategory). -/
def categorizePrompt (promptText : String) : String × String :=
  if testWordPattern featureDevAlts promptText then
    if testWordPattern testingAlts promptText then
      ("feature_development", "with_tests")
    else ("feature_development", "implementation")
  else if testWordPattern bugFixAlts promptText then
    if testWordPattern testingAlts promptText then ("bug_fix", "with_tests")
    else ("bug_fix", "fix")
  else if testWordPattern testingAlts promptText then ("testing", "writing_tests")
  else if testWordPattern refactoringAlts promptText then
    ("refactoring", "code_improvement")
  else if testWordPattern documentationAlts promptText then
    ("documentation", "writing_docs")
  else if testWordPattern codeUnderstandingAlts promptText then
    if testWordPattern explanationAlts promptText then
      ("code_understanding", "explanation")
    else if testWordPattern navigationAlts promptText then
      ("code_understanding", "navigation")
    else ("code_understanding", "question")
  else if testWordPattern debuggingAlts promptText then
    ("debugging", "investigation")
  else if testWordPattern codeReviewAlts promptText then ("code_review", "review")
  else if testWordPattern configurationAlts promptText then
    ("configuration", "setup")
  else if testWordPattern versionControlAlts promptText then
    ("version_control", "git_operations")
  else ("general", "other")

/-- C4 counterexample: the prompt
`"fix the broken login validation and add a test"` is NOT classified as
`bug_fix`/`with_tests`: the word `add` matches the feature-development
pattern, which `categorizePrompt` tests before the bug-fix pattern. -/
theorem claim_C4_counterexample :
    categorizePrompt "fix the broken login validation and add a test"
      ≠ ("bug_fix", "with_tests") := by decide

/-- C4 (amended): the prompt
`"fix the broken login validation and add a test"` is classified as
category `feature_development` with subcategory `with_tests` — `add`
matches the feature-development group (tested first) and `test` matches
the testing group. -/
theorem claim_C4_classification :
    categorizePrompt "fix the broken login validation and add a test"
      = ("feature_development", "with_tests") := by decide

/-! ## Cost calculator (`CONFIG.PRICING`, `calculateTokenCost`) -/

/-- One token-usage tuple (`entry.message.usage` in a transcript). -/
structure Usage where
  input_tokens : Nat
  output_tokens : Nat
  cache_creation_input_tokens : Nat
  cache_read_input_tokens : Nat
deriving DecidableEq

/-- Per-million-token rates of one pricing tier. -/
structure PricingTier where
  input : ℚ
  output : ℚ
  cacheWrite : ℚ
  cacheRead : ℚ
deriving DecidableEq

/-- A model entry of `CONFIG.PRICING`; every entry in the source's table
defines both tiers. -/
structure ModelPricing where
  standard : PricingTier
  extended : PricingTier
deriving DecidableEq

/-- AWS Bedrock EU Claude Sonnet 4.5 rates (10% regional premium);
extended tier: 2x input-side, 1.5x output. -/
def sonnetPricing : ModelPricing :=
  ⟨⟨3.30, 16.50, 4.125, 0.33⟩, ⟨6.60, 24.75, 8.25, 0.66⟩⟩

/-- AWS Bedrock EU Claude 3 Haiku rates. -/
def haikuPricing : ModelPricing :=
  ⟨⟨0.25, 1.25, 0.3125, 0.025⟩, ⟨0.50, 1.875, 0.625, 0.05⟩⟩

/-- `CONFIG.PRICING` as a lookup by model identifier. -/
def PRICING (m : String) : Option ModelPricing :=
  if m = "eu.anthropic.claude-sonnet-4-5-20250929-v1:0" then some sonnetPricing
  else if m = "eu.anthropic.claude-3-haiku-20240307-v1:0" then some haikuPricing
  else none

/-- `CONFIG.DEFAULT_MODEL`. -/
def DEFAULT_MODEL : String := "eu.anthropic.claude-sonnet-4-5-20250929-v1:0"

/-- `CONFIG.EXTENDED_CONTEXT_THRESHOLD`. -/
def EXTENDED_CONTEXT_THRESHOLD : Nat := 200000

/-- The cost object returned by `calculateTokenCost`. -/
structure CostBreakdown where
  input_cost_usd : ℚ
  output_cost_usd : ℚ
  cache_write_cost_usd : ℚ
  cache_read_cost_usd : ℚ
  total_cost_usd : ℚ
deriving DecidableEq

/-- The four per-category cost lines of `calculateTokenCost`, computed
from an already-selected tier: each category is tokens over one million
times the tier rate, the total being their sum. -/
def tierCosts (pricing : PricingTier) (usage : Usage) : CostBreakdown :=
  let inputCost := ((usage.input_tokens : ℚ) / 1000000) * pricing.input
  let outputCost := ((usage.output_tokens : ℚ) / 1000000) * pricing.output
  let cacheWriteCost :=
    ((usage.cache_creation_input_tokens : ℚ) / 1000000) * pricing.cacheWrite
  let cacheReadCost :=
    ((usage.cache_read_input_tokens : ℚ) / 1000000) * pricing.cacheRead
  ⟨inputCost, outputCost, cacheWriteCost, cacheReadCost,
   inputCost + outputCost + cacheWriteCost + cacheReadCost⟩

/-- Total input tokens (input + cache write + cache read), the tier
selector. -/
def totalInputTokens (usage : Usage) : Nat :=
  usage.input_tokens + usage.cache_creation_input_tokens
    + usage.cache_read_input_tokens

/-- `calculateTokenCost` from the source: look the model up in the
pricing table (falling back to the default model's pricing), pick the
extended tier iff total input tokens exceed the threshold, and price
each category per million tokens.  (Every entry of the source's table
has both tiers, so the old-format single-tier fallback branch is dead
for this table.) -/
def calculateTokenCost (usage : Usage) (modelName : Option String) : CostBreakdown :=
  let modelPricing := (modelName.bind PRICING).getD
    ((PRICING DEFAULT_MODEL).getD sonnetPricing)
  let pricing :=
    if EXTENDED_CONTEXT_THRESHOLD < totalInputTokens usage then modelPricing.extended
    else modelPricing.standard
  tierCosts pricing usage

theorem sum4_lt {a b c d s1 s2 s3 s4 e1 e2 e3 e4 : ℚ}
    (ha : 0 ≤ a) (hb : 0 ≤ b) (hc : 0 ≤ c) (hd : 0 ≤ d)
    (h1 : s1 < e1) (h2 : s2 < e2) (h3 : s3 < e3) (h4 : s4 < e4)
    (hpos : 0 < a ∨ 0 < b ∨ 0 < c ∨ 0 < d) :
    a * s1 + b * s2 + c * s3 + d * s4 < a * e1 + b * e2 + c * e3 + d * e4 := by
  rcases hpos with h | h | h | h <;> nlinarith

/-- C3: for every usage tuple and every model of the pricing table (all
of which define both tiers), total input tokens at most 200,000 price
every category at the standard-tier rates and above 200,000 at the
extended-tier rates; each extended-tier per-token rate is strictly
greater than the standard one, and for any usage with at least one
token the extended-tier cost is strictly greater. -/
theorem claim_C3_tiered_pricing (u : Usage) (m : String) (mp : ModelPricing)
    (hm : PRICING m = some mp) :
    (totalInputTokens u ≤ EXTENDED_CONTEXT_THRESHOLD →
      calculateTokenCost u (some m) = tierCosts mp.standard u) ∧
    (EXTENDED_CONTEXT_THRESHOLD < totalInputTokens u →
      calculateTokenCost u (some m) = tierCosts mp.extended u) ∧
    (mp.standard.input < mp.extended.input ∧
     mp.standard.output < mp.extended.output ∧
     mp.standard.cacheWrite < mp.extended.cacheWrite ∧
     mp.standard.cacheRead < mp.extended.cacheRead) ∧
    (0 < u.input_tokens + u.output_tokens + u.cache_creation_input_tokens
        + u.cache_read_input_tokens →
      (tierCosts mp.standard u).total_cost_usd
        < (tierCosts mp.extended u).total_cost_usd) := by
  have hrates : mp.standard.input < mp.extended.input ∧
      mp.standard.output < mp.extended.output ∧
      mp.standard.cacheWrite < mp.extended.cacheWrite ∧
      mp.standard.cacheRead < mp.extended.cacheRead := by
    unfold PRICING at hm
    split at hm
    · cases hm
      refine ⟨?_, ?_, ?_, ?_⟩ <;> norm_num [sonnetPricing]
    · split at hm
      · cases hm
        refine ⟨?_, ?_, ?_, ?_⟩ <;> norm_num [haikuPricing]
      · cases hm
  refine ⟨?_, ?_, hrates, ?_⟩
  · intro hle
    unfold calculateTokenCost
    rw [Option.some_bind, hm]
    simp only [Option.getD_some]
    rw [if_neg (by omega)]
  · intro hgt
    unfold calculateTokenCost
    rw [Option.some_bind, hm]
    simp only [Option.getD_some]
    rw [if_pos hgt]
  · intro hpos
    obtain ⟨h1, h2, h3, h4⟩ := hrates
    simp only [tierCosts]
    apply sum4_lt (by positivity) (by positivity) (by positivity) (by positivity)
      h1 h2 h3 h4
    have : 0 < u.input_tokens ∨ 0 < u.output_tokens ∨
        0 < u.cache_creation_input_tokens ∨ 0 < u.cache_read_input_tokens := by
      omega
    rcases this with h | h | h | h
    · exact Or.inl (by positivity)
    · exact Or.inr (Or.inl (by positivity))
    · exact Or.inr (Or.inr (Or.inl (by positivity)))
    · exact Or.inr (Or.inr (Or.inr (by positivity)))

/-- Witness for C3: the sonnet model priced at 150k input tokens
(standard tier), at 250k input tokens (extended tier), and the strict
tier comparison at the 250k usage. -/
theorem claim_C3_tiered_pricing_witness :
    calculateTokenCost ⟨150000, 10, 0, 0⟩
        (some "eu.anthropic.claude-sonnet-4-5-20250929-v1:0")
      = tierCosts sonnetPricing.standard ⟨150000, 10, 0, 0⟩ ∧
    calculateTokenCost ⟨250000, 10, 0, 0⟩
        (some "eu.anthropic.claude-sonnet-4-5-20250929-v1:0")
      = tierCosts sonnetPricing.extended ⟨250000, 10, 0, 0⟩ ∧
    (tierCosts sonnetPricing.standard ⟨250000, 10, 0, 0⟩).total_cost_usd
      < (tierCosts sonnetPricing.extended ⟨250000, 10, 0, 0⟩).total_cost_usd :=
  ⟨(claim_C3_tiered_pricing ⟨150000, 10, 0, 0⟩ _ sonnetPricing
      (by unfold PRICING; rw [if_pos rfl])).1 (by decide),
   (claim_C3_tiered_pricing ⟨250000, 10, 0, 0⟩ _ sonnetPricing
      (by unfold PRICING; rw [if_pos rfl])).2.1 (by decide),
   (claim_C3_tiered_pricing ⟨250000, 10, 0, 0⟩
      "eu.anthropic.claude-sonnet-4-5-20250929-v1:0" sonnetPricing
      (by unfold PRICING; rw [if_pos rfl])).2.2.2 (by decide)⟩

/-! ## Turn/tool state machine and session state

One `processEvent` call models one full process invocation: the event
arrives on stdin, per-session state is loaded from the `Store` (the
state directory), the handler runs, and state is saved back only where
the source calls `saveTurnState`.  Ledger appends are reified as a list
of `Record`s; stderr logging is not modeled. -/

/-- `this.currentTurn[sessionId]` — the per-turn working set. -/
structure TurnState where
  number : Nat
  startTime : Int
  toolCount : Nat
  turnCost : ℚ
  totalSessionCost : ℚ

/-- One in-flight entry of `this.toolStartData[sessionId]`. -/
structure ToolEntry where
  toolName : String
  turnNumber : Nat
  startTime : Int
  inputSize : Nat
deriving DecidableEq

/-- The full persisted per-session state file: `currentTurn`,
`toolStartData` (an insertion-ordered key/value map) and `toolCounter`.
`saveTurnState` writes a file only when `currentTurn` exists, so a
present file always carries a `TurnState`. -/
structure SessionState where
  currentTurn : TurnState
  toolStartData : List (String × ToolEntry)
  toolCounter : Nat

/-- The state directory: one optional state file per session id. -/
def Store : Type := String → Option SessionState

/-- No state files yet. -/
def emptyStore : Store := fun _ => none

/-- `saveTurnState`: overwrite one session's state file. -/
def Store.save (σ : Store) (sid : String) (st : SessionState) : Store :=
  fun s => if s = sid then some st else σ s

/-- One `type === "assistant"` transcript line carrying
`message.usage`, as collected by `parseTranscriptTokens`. -/
structure UsageEntry where
  message_id : String
  model_name : Option String
  usage : Usage
  timestamp : Int

/-- An incoming hook event: the duck-typed JSON payload, with the
transcript file's parsed usage entries inlined (`transcript = none`
models an absent `transcript_path`), and `now` the `Date.now()` of this
invocation.  `tool_input_size`/`tool_output_size` carry
`JSON.stringify(...).length` of the respective payloads. -/
structure Event where
  hook_event_name : Option String
  session_id : String
  tool_name : Option String
  tool_input_size : Nat
  command : Option String
  tool_output_size : Nat
  success : Option Bool
  prompt : Option String
  transcript : Option (List UsageEntry)
  was_interrupted : Bool
  tokens_before : Nat
  tokens_after : Nat
  compaction_type : Option String
  trigger_reason : Option String
  now : Int

/-- One appended ledger row, reified per category with the fields the
handlers compute.  (`gitOp` keeps only the operation type and `commit`
only the session — their remaining columns come from external `git`
invocations.) -/
inductive Record where
  | turn (sessionId : String) (number : Nat) (startTime endTime : Int)
      (toolCount : Nat) (turnCost : ℚ) (interrupted : Bool)
  | prompt (sessionId : String) (number : Nat) (category subcategory : String)
      (length : Nat) (timestamp : Int)
  | tool (sessionId : String) (turnNumber : Nat) (toolName : String)
      (startTime endTime : Int) (success : Bool) (processingTime : Int)
      (inputSize outputSize : Nat)
  | cost (sessionId : String) (turnNumber : Nat) (messageId : String)
      (model : String) (inputTokens outputTokens totalTokens : Nat)
      (inputCost outputCost totalCost : ℚ) (timestamp : Int)
  | session (sessionId : String) (startTime : Option Int) (endTime : Int)
      (turnCount : Nat) (totalCost : ℚ) (interrupted : Bool)
  | compaction (sessionId : String) (turnNumber : Nat) (timestamp : Int)
      (tokensBefore tokensAfter : Nat) (reduction : Int)
      (reductionPercent : ℚ) (compactionType triggerReason : String)
  | gitOp (sessionId : String) (opType : String)
  | commit (sessionId : String)

/-- `getCurrentTurnNumber`: `this.currentTurn[sessionId]?.number || 1`
(JS `||`: a number `0` is falsy). -/
def getCurrentTurnNumber (st? : Option SessionState) : Nat :=
  match st? with
  | some st => if st.currentTurn.number = 0 then 1 else st.currentTurn.number
  | none => 1

/-- JS whitespace (ASCII subset) for `\s`. -/
def isJSWhitespace (c : Char) : Bool :=
  c = ' ' || c = '\t' || c = '\n' || c = '\r' || c = Char.ofNat 11 || c = Char.ofNat 12

/-- Does `git` followed by one-or-more whitespace and then `verb` start
at the head of `l`?  (`/git\s+verb/` has no word boundaries.) -/
def gitVerbAt (verb : List Char) (l : List Char) : Bool :=
  List.isPrefixOf ['g', 'i', 't'] l &&
    (let r := (l.drop 3).takeWhile isJSWhitespace
     !r.isEmpty && List.isPrefixOf verb ((l.drop 3).drop r.length))

/-- `/git\s+verb/.test(command)`. -/
def containsGitVerb (verb : String) (cmd : String) : Bool :=
  cmd.data.tails.any (gitVerbAt verb.data)

/-- The operation type selected by `handleGitOperations`' if/else-if
chain (push, pull, fetch, clone, merge — first match wins); `none` when
no pattern matches and nothing is appended. -/
def gitOpType (cmd : String) : Option String :=
  if containsGitVerb "push" cmd then some "push"
  else if containsGitVerb "pull" cmd then some "pull"
  else if containsGitVerb "fetch" cmd then some "fetch"
  else if containsGitVerb "clone" cmd then some "clone"
  else if containsGitVerb "merge" cmd then some "merge"
  else none

/-- `handleGitOperations`: append one git-operation row when the Bash
command matches a git pattern (remote/branch capture groups elided —
they do not affect which records exist). -/
def gitOpRecords (sid : String) (cmd : String) : List Record :=
  match gitOpType cmd with
  | some t => [Record.gitOp sid t]
  | none => []

/-- JS `x || y` on a number already known non-NaN: `0` is falsy. -/
def jsOrInt (a b : Int) : Int := if a = 0 then b else a

/-- One per-usage-entry element of `parseTranscriptTokens`' result. -/
structure TokenRecord where
  message_id : String
  input_tokens : Nat
  output_tokens : Nat
  total_tokens : Nat
  model_name : Option String
  timestamp : Int
  costs : CostBreakdown

/-- `parseTranscriptTokens` over the already-extracted usage entries:
attach model costs and the input+output token total to each entry. -/
def parseTranscriptTokens (entries : List UsageEntry) : List TokenRecord :=
  entries.map (fun en =>
    ⟨en.message_id, en.usage.input_tokens, en.usage.output_tokens,
     en.usage.input_tokens + en.usage.output_tokens, en.model_name,
     en.timestamp, calculateTokenCost en.usage en.model_name⟩)

/-- `this.currentTurn[sessionId]?.startTime || ""` in
`updateSessionRecord`: `none` models the empty cell (a `0` start time is
falsy in JS and also yields the empty cell). -/
def startTimeOpt (st? : Option SessionState) : Option Int :=
  match st? with
  | some st =>
    if st.currentTurn.startTime = 0 then none else some st.currentTurn.startTime
  | none => none

/-- The prompt-classification append of `handleTurnStart` for the new
turn number `n` (skipped when the prompt is absent or blank; the
recorded length is the trimmed prompt's). -/
def promptRecords (sid : String) (n : Nat) (e : Event) : List Record :=
  match e.prompt with
  | some p =>
    if p.trim ≠ "" then
      [Record.prompt sid n (categorizePrompt p).1 (categorizePrompt p).2
        p.trim.length e.now]
    else []
  | none => []

/-- `handleTurnStart`: load the session's state file; if a turn is open,
finalize it as a Turn record (not interrupted); then initialize turn 1
or advance the turn (resetting tool count and turn cost, keeping the
cumulative session cost and the in-flight tool data); save; finally
classify and record the prompt when it is non-blank. -/
def handleTurnStart (σ : Store) (sessionId : String) (e : Event) :
    Store × List Record :=
  let now := e.now
  let st? := σ sessionId
  let turnRecs : List Record :=
    match st? with
    | some st =>
      [Record.turn sessionId st.currentTurn.number st.currentTurn.startTime now
        st.currentTurn.toolCount st.currentTurn.turnCost false]
    | none => []
  let newState : SessionState :=
    match st? with
    | none => ⟨⟨1, now, 0, 0, 0⟩, [], 0⟩
    | some st =>
      ⟨⟨st.currentTurn.number + 1, now, 0, 0, st.currentTurn.totalSessionCost⟩,
       st.toolStartData, st.toolCounter⟩
  let σ2 := σ.save sessionId newState
  (σ2, turnRecs ++ promptRecords sessionId newState.currentTurn.number e)

/-- The git-operation append of `handleToolStart`: only for a `Bash`
tool with a non-empty command. -/
def bashGitRecords (sid toolName : String) (e : Event) : List Record :=
  if toolName = "Bash" then
    match e.command with
    | some cmd => if cmd ≠ "" then gitOpRecords sid cmd else []
    | none => []
  else []

/-- `handleToolStart`: load state; bump the turn's tool count and the
per-session tool counter; store the in-flight entry under the fresh
`sessionId_toolName_counter` key; save (the source's `saveTurnState`
writes nothing when no turn is open, so without a state file the
in-memory bookkeeping is lost); finally record a git operation for a
matching Bash command. -/
def handleToolStart (σ : Store) (sessionId toolName : String) (e : Event) :
    Store × List Record :=
  let now := e.now
  let st? := σ sessionId
  let turnNumber := getCurrentTurnNumber st?
  let gitRecs : List Record := bashGitRecords sessionId toolName e
  match st? with
  | none => (σ, gitRecs)
  | some st =>
    let counter := st.toolCounter + 1
    let key := sessionId ++ "_" ++ toolName ++ "_" ++ toString counter
    let entry : ToolEntry := ⟨toolName, turnNumber, now, e.tool_input_size⟩
    let st2 : SessionState :=
      ⟨⟨st.currentTurn.number, st.currentTurn.startTime,
        st.currentTurn.toolCount + 1, st.currentTurn.turnCost,
        st.currentTurn.totalSessionCost⟩,
       st.toolStartData ++ [(key, entry)], counter⟩
    (σ.save sessionId st2, gitRecs)

/-- `handleToolEnd`: load state; find the most recently stored in-flight
entry with this tool name (`Object.keys(...).reverse().find(...)`); if
none, drop the completion (warning only, nothing written, nothing
saved); otherwise emit one complete tool row, delete the matched key,
track a git commit for a Bash command, and save. -/
def handleToolEnd (σ : Store) (sessionId toolName : String) (e : Event) :
    Store × List Record :=
  let now := e.now
  match σ sessionId with
  | none => (σ, [])
  | some st =>
    match st.toolStartData.reverse.find? (fun kv => kv.2.toolName = toolName) with
    | none => (σ, [])
    | some kv =>
      let startData := kv.2
      let processingTime := now - startData.startTime
      let toolRec := Record.tool sessionId startData.turnNumber toolName
        startData.startTime now (e.success.getD true) processingTime
        startData.inputSize e.tool_output_size
      let newInflight := st.toolStartData.filter (fun kv2 => kv2.1 ≠ kv.1)
      let commitRecs : List Record :=
        if toolName = "Bash" ∧ startData.inputSize ≠ 0 then
          match e.command with
          | some cmd =>
            if cmd ≠ "" ∧ containsGitVerb "commit" cmd then [Record.commit sessionId]
            else []
          | none => []
        else []
      let st2 : SessionState := ⟨st.currentTurn, newInflight, st.toolCounter⟩
      (σ.save sessionId st2, toolRec :: commitRecs)

/-- `handleCompaction`: this handler never loads the state file, so in a
fresh process the in-memory turn map is empty and the turn number falls
back to 1; emit one compaction row (guarding the percentage against a
zero before-count), touching no state.  `tokens_before`/`tokens_after`
collapse the source's two accepted field spellings. -/
def handleCompaction (σ : Store) (sessionId : String) (e : Event) :
    Store × List Record :=
  let now := e.now
  let turnNumber := getCurrentTurnNumber none
  let tokensBefore := e.tokens_before
  let tokensAfter := e.tokens_after
  let reductionTokens : Int := (tokensBefore : Int) - (tokensAfter : Int)
  let reductionPercent : ℚ :=
    if 0 < tokensBefore then ((reductionTokens : ℚ) / (tokensBefore : ℚ)) * 100
    else 0
  (σ, [Record.compaction sessionId turnNumber now tokensBefore tokensAfter
    reductionTokens reductionPercent (e.compaction_type.getD "auto")
    (e.trigger_reason.getD "threshold")])

/-- `handleSessionEnd`: load state; when a transcript path is supplied
and a turn is open, take the transcript's last usage entry, emit one
cost row, add its cost to the turn cost and the cumulative session
cost, and save; then emit the terminal session row carrying the
cumulative session cost accumulated in state (0 when no state exists),
without re-reading prior cost rows.  No save happens outside the
transcript branch; the state file is never deleted. -/
def handleSessionEnd (σ : Store) (sessionId : String) (e : Event) :
    Store × List Record :=
  let now := e.now
  let st? := σ sessionId
  let turnNumber := getCurrentTurnNumber st?
  match e.transcript, st? with
  | some entries, some st =>
    match (parseTranscriptTokens entries).getLast? with
    | some latest =>
      let costRec := Record.cost sessionId turnNumber latest.message_id
        (latest.model_name.getD DEFAULT_MODEL) latest.input_tokens
        latest.output_tokens latest.total_tokens latest.costs.input_cost_usd
        latest.costs.output_cost_usd latest.costs.total_cost_usd
        (jsOrInt latest.timestamp now)
      let st2 : SessionState :=
        ⟨⟨st.currentTurn.number, st.currentTurn.startTime,
          st.currentTurn.toolCount, latest.costs.total_cost_usd,
          st.currentTurn.totalSessionCost + latest.costs.total_cost_usd⟩,
         st.toolStartData, st.toolCounter⟩
      (σ.save sessionId st2,
       [costRec,
        Record.session sessionId (startTimeOpt (some st2)) now turnNumber
          st2.currentTurn.totalSessionCost e.was_interrupted])
    | none =>
      (σ, [Record.session sessionId (startTimeOpt st?) now turnNumber
        st.currentTurn.totalSessionCost e.was_interrupted])
  | _, _ =>
    let totalCost : ℚ :=
      match st? with
      | some st => st.currentTurn.totalSessionCost
      | none => 0
    (σ, [Record.session sessionId (startTimeOpt st?) now turnNumber totalCost
      e.was_interrupted])

/-- The fixed event-kind enumeration accepted by `validateEventData`. -/
def validEvents : List String :=
  ["UserPromptSubmit", "PreToolUse", "PostToolUse", "PreCompact", "Stop"]

/-- Is an optional string falsy in JS (absent or empty)? -/
def jsStrFalsy : Option String → Bool
  | none => true
  | some s => s = ""

/-- `validateEventData`: require a truthy `hook_event_name` string from
the fixed enumeration, and a truthy `tool_name` for the two tool
events. -/
def validateEventData (e : Event) : Bool :=
  match e.hook_event_name with
  | none => false
  | some name =>
    if name = "" then false
    else if name ∉ validEvents then false
    else if (name = "PreToolUse" ∨ name = "PostToolUse") ∧ jsStrFalsy e.tool_name
    then false
    else true

/-- `generateSessionId` (timestamp-based; the random suffix is elided —
the id is only used as a fresh key when `PreToolUse` arrives without a
session id). -/
def generateSessionId (now : Int) : String := "session_" ++ toString now

/-- `processHookEvent` for one fresh process invocation: validate, then
dispatch through the source's if/else-if chain on the event kind (the
two tool branches additionally require a truthy tool name); an invalid
event is logged and dropped with no ledger append and no state
change. -/
def processEvent (σ : Store) (e : Event) : Store × List Record :=
  if validateEventData e then
    if e.hook_event_name = some "UserPromptSubmit" then
      handleTurnStart σ e.session_id e
    else if e.hook_event_name = some "PreToolUse" ∧ ¬ jsStrFalsy e.tool_name then
      handleToolStart σ
        (if e.session_id = "" then generateSessionId e.now else e.session_id)
        (e.tool_name.getD "") e
    else if e.hook_event_name = some "PostToolUse" ∧ ¬ jsStrFalsy e.tool_name then
      handleToolEnd σ e.session_id (e.tool_name.getD "") e
    else if e.hook_event_name = some "PreCompact" then
      handleCompaction σ e.session_id e
    else if e.hook_event_name = some "Stop" then
      handleSessionEnd σ e.session_id e
    else (σ, [])
  else (σ, [])

/-- A sequence of events, each processed by a fresh invocation against
the shared state directory; all appended records concatenated in
order. -/
def processTrace (σ : Store) : List Event → Store × List Record
  | [] => (σ, [])
  | e :: rest =>
    let p := processEvent σ e
    let q := processTrace p.1 rest
    (q.1, p.2 ++ q.2)

/-- The turn numbers of the Turn records for session `s`, in emission
order. -/
def turnNumbersFor (s : String) (recs : List Record) : List Nat :=
  recs.filterMap (fun r =>
    match r with
    | Record.turn sid n _ _ _ _ _ => if sid = s then some n else none
    | _ => none)

/-- The in-flight tool map a fresh invocation sees for a session. -/
def inflightOf (σ : Store) (sid : String) : List (String × ToolEntry) :=
  match σ sid with
  | some st => st.toolStartData
  | none => []

theorem handleToolEnd_no_match (σ : Store) (sessionId toolName : String)
    (e : Event)
    (h : ∀ kv ∈ inflightOf σ sessionId, kv.2.toolName ≠ toolName) :
    handleToolEnd σ sessionId toolName e = (σ, []) := by
  cases hst : σ sessionId with
  | none => unfold handleToolEnd; rw [hst]
  | some st =>
    have hfind : st.toolStartData.reverse.find?
        (fun kv => kv.2.toolName = toolName) = none := by
      rw [List.find?_eq_none]
      intro kv hkv
      have hmem : kv ∈ inflightOf σ sessionId := by
        rw [inflightOf, hst]
        exact List.mem_reverse.mp hkv
      simp [h kv hmem]
    unfold handleToolEnd
    rw [hst]
    simp [hfind]

/-- C5: a ToolFinished event whose tool name matches no stored in-flight
entry for its session appends no record, raises no error (processing
returns normally), and leaves the session state store — in-flight map
included — unchanged. -/
theorem claim_C5_unmatched_tool_end (σ : Store) (e : Event) (t : String)
    (hk : e.hook_event_name = some "PostToolUse")
    (ht : e.tool_name = some t) (htne : t ≠ "")
    (h : ∀ kv ∈ inflightOf σ e.session_id, kv.2.toolName ≠ t) :
    processEvent σ e = (σ, []) := by
  have hvalid : validateEventData e = true := by
    simp [validateEventData, hk, ht, validEvents, jsStrFalsy, htne]
  unfold processEvent
  rw [if_pos hvalid, if_neg (by simp [hk]), if_neg (by simp [hk]),
    if_pos (⟨hk, by simp [jsStrFalsy, ht, htne]⟩ :
      e.hook_event_name = some "PostToolUse" ∧ ¬ jsStrFalsy e.tool_name)]
  rw [ht]
  exact handleToolEnd_no_match σ e.session_id t e h

/-- Concrete store for the C5 witness: session `s` has one in-flight
`Read` entry. -/
def storeC5 : Store := fun s =>
  if s = "s" then some ⟨⟨1, 5, 1, 0, 0⟩, [("s_Read_1", ⟨"Read", 1, 5, 2⟩)], 1⟩
  else none

/-- Concrete event for the C5 witness: `PostToolUse` for tool `Write`,
which matches no in-flight entry. -/
def eventC5 : Event :=
  ⟨some "PostToolUse", "s", some "Write", 2, none, 2, none, none, none,
   false, 0, 0, none, none, 100⟩

/-- Witness for C5: a `Write` completion against a store holding only a
`Read` in-flight entry is dropped with no record and no state change. -/
theorem claim_C5_unmatched_tool_end_witness :
    processEvent storeC5 eventC5 = (storeC5, []) :=
  claim_C5_unmatched_tool_end storeC5 eventC5 "Write" rfl rfl (by decide)
    (by
      intro kv hkv
      have heq : inflightOf storeC5 eventC5.session_id
          = [("s_Read_1", (⟨"Read", 1, 5, 2⟩ : ToolEntry))] := rfl
      rw [heq] at hkv
      simp only [List.mem_singleton] at hkv
      subst hkv
      decide)

/-- C9: an event missing the event-kind field, naming a kind outside the
fixed enumeration, or lacking a (truthy) tool name for `PreToolUse` or
`PostToolUse`, is dropped: no record is appended and no session state
changes. -/
theorem claim_C9_invalid_events_dropped (σ : Store) (e : Event)
    (h : e.hook_event_name = none ∨
      (∀ n, e.hook_event_name = some n → n ∉ validEvents) ∨
      ((e.hook_event_name = some "PreToolUse" ∨
        e.hook_event_name = some "PostToolUse")
        ∧ jsStrFalsy e.tool_name = true)) :
    processEvent σ e = (σ, []) := by
  have hvalid : validateEventData e = false := by
    cases hk : e.hook_event_name with
    | none => rw [validateEventData, hk]
    | some name =>
      rcases h with h1 | h2 | h3
      · rw [hk] at h1; cases h1
      · have hn : name ∉ validEvents := h2 name hk
        by_cases hne : name = "" <;> simp [validateEventData, hk, hn, hne]
      · obtain ⟨hkind, hfalsy⟩ := h3
        rcases hkind with hk2 | hk2 <;>
          · rw [hk] at hk2
            injection hk2 with hname
            subst hname
            simp [validateEventData, hk, validEvents, hfalsy]
  simp [processEvent, hvalid]

/-- Concrete event for the C9 witness: an unrecognized event kind. -/
def eventC9 : Event :=
  ⟨some "SessionRenamed", "s", none, 2, none, 2, none, none, none,
   false, 0, 0, none, none, 0⟩

/-- Witness for C9: an event with kind `SessionRenamed` is dropped
against the empty store. -/
theorem claim_C9_invalid_events_dropped_witness :
    processEvent emptyStore eventC9 = (emptyStore, []) :=
  claim_C9_invalid_events_dropped emptyStore eventC9
    (Or.inr (Or.inl (by
      intro n hn
      injection hn with h2
      subst h2
      decide)))

/-- C6: a `Stop` event with no transcript path, for a session whose
persisted state carries an accumulated cumulative cost, appends exactly
one terminal Session record whose total-cost field is that accumulated
cumulative cost (taken from state, not recomputed from the cost
ledger), and changes no state. -/
theorem claim_C6_stop_without_transcript (σ : Store) (e : Event)
    (st : SessionState)
    (hk : e.hook_event_name = some "Stop")
    (htr : e.transcript = none)
    (hst : σ e.session_id = some st) :
    processEvent σ e =
      (σ, [Record.session e.session_id (startTimeOpt (some st)) e.now
        (getCurrentTurnNumber (some st)) st.currentTurn.totalSessionCost
        e.was_interrupted]) := by
  have hvalid : validateEventData e = true := by
    simp [validateEventData, hk, validEvents]
  unfold processEvent
  rw [if_pos hvalid, if_neg (by simp [hk]), if_neg (by simp [hk]),
    if_neg (by simp [hk]), if_neg (by simp [hk]), if_pos hk]
  unfold handleSessionEnd
  rw [hst, htr]

/-- Concrete store for the C6 witness: session `s` has accumulated
cumulative cost 7/2. -/
def storeC6 : Store := fun s =>
  if s = "s" then some ⟨⟨3, 50, 2, 1, 7/2⟩, [], 4⟩ else none

/-- Concrete event for the C6 witness: `Stop` with no transcript. -/
def eventC6 : Event :=
  ⟨some "Stop", "s", none, 2, none, 2, none, none, none, false, 0, 0,
   none, none, 900⟩

/-- Witness for C6: the terminal Session record carries the accumulated
7/2, and the store is unchanged. -/
theorem claim_C6_stop_without_transcript_witness :
    processEvent storeC6 eventC6 =
      (storeC6, [Record.session "s" (some 50) 900 3 (7/2) false]) :=
  claim_C6_stop_without_transcript storeC6 eventC6 ⟨⟨3, 50, 2, 1, 7/2⟩, [], 4⟩
    rfl rfl rfl

/-- Is a record a Tool Invocation row? -/
def isToolRecord : Record → Bool
  | Record.tool _ _ _ _ _ _ _ _ _ => true
  | _ => false

theorem find?_decomp {α : Type} {l : List α} {p : α → Bool} {b : α}
    (h : l.find? p = some b) :
    ∃ l1 l2, l = l1 ++ b :: l2 ∧ p b = true ∧ ∀ x ∈ l1, p x = false := by
  induction l with
  | nil => simp [List.find?] at h
  | cons a l ih =>
    rw [List.find?_cons] at h
    by_cases hp : p a
    · rw [hp] at h
      cases h
      exact ⟨[], l, by simp, hp, by simp⟩
    · rw [Bool.not_eq_true] at hp
      rw [hp] at h
      obtain ⟨l1, l2, rfl, hb, hl1⟩ := ih h
      refine ⟨a :: l1, l2, by simp, hb, ?_⟩
      intro x hx
      rcases List.mem_cons.mp hx with rfl | hx2
      · exact hp
      · exact hl1 x hx2

theorem commitRecs_filter (sessionId : String) (b : Prop) [Decidable b]
    (cmd? : Option String) :
    (if b then
       match cmd? with
       | some cmd =>
         if cmd ≠ "" ∧ containsGitVerb "commit" cmd then [Record.commit sessionId]
         else []
       | none => []
     else []).filter isToolRecord = [] := by
  cases cmd? with
  | none => split <;> rfl
  | some cmd =>
    by_cases hb : b
    · rw [if_pos hb]
      show (if cmd ≠ "" ∧ containsGitVerb "commit" cmd then
        [Record.commit sessionId] else []).filter isToolRecord = []
      by_cases hc : cmd ≠ "" ∧ containsGitVerb "commit" cmd
      · rw [if_pos hc]; rfl
      · rw [if_neg hc]; rfl
    · rw [if_neg hb]; rfl

theorem handleToolEnd_match (σ : Store) (sessionId toolName : String)
    (e : Event) (st : SessionState) (kv : String × ToolEntry)
    (hst : σ sessionId = some st)
    (hfind : st.toolStartData.reverse.find?
      (fun kv => kv.2.toolName = toolName) = some kv) :
    handleToolEnd σ sessionId toolName e =
      (σ.save sessionId ⟨st.currentTurn,
        st.toolStartData.filter (fun kv2 => kv2.1 ≠ kv.1), st.toolCounter⟩,
       Record.tool sessionId kv.2.turnNumber toolName kv.2.startTime e.now
           (e.success.getD true) (e.now - kv.2.startTime) kv.2.inputSize
           e.tool_output_size
         :: (if toolName = "Bash" ∧ kv.2.inputSize ≠ 0 then
              match e.command with
              | some cmd =>
                if cmd ≠ "" ∧ containsGitVerb "commit" cmd then
                  [Record.commit sessionId]
                else []
              | none => []
            else [])) := by
  unfold handleToolEnd
  rw [hst]
  simp only [hfind]

/-- C2: on ToolFinished for tool `T` with at least one in-flight entry
for `T`, the engine selects the most recently stored such entry (the
in-flight map decomposes as `l1 ++ [(k, en)] ++ l2` with no `T` entry in
the later part `l2`), emits exactly one Tool Invocation record whose
duration is the event time minus that entry's start time and whose turn
number and input size come from that entry, and removes exactly that
entry, leaving every other in-flight entry (and the rest of the state)
unchanged. -/
theorem claim_C2_tool_end_matching (σ : Store) (sessionId toolName : String)
    (e : Event) (st : SessionState)
    (hst : σ sessionId = some st)
    (hnodup : (st.toolStartData.map Prod.fst).Nodup)
    (hmem : ∃ kv ∈ st.toolStartData, kv.2.toolName = toolName) :
    ∃ k en l1 l2,
      st.toolStartData = l1 ++ (k, en) :: l2 ∧
      en.toolName = toolName ∧
      (∀ kv ∈ l2, kv.2.toolName ≠ toolName) ∧
      (handleToolEnd σ sessionId toolName e).1
        = σ.save sessionId ⟨st.currentTurn, l1 ++ l2, st.toolCounter⟩ ∧
      (handleToolEnd σ sessionId toolName e).2.filter isToolRecord
        = [Record.tool sessionId en.turnNumber toolName en.startTime e.now
            (e.success.getD true) (e.now - en.startTime) en.inputSize
            e.tool_output_size] := by
  obtain ⟨kv0, hkv0mem, hkv0p⟩ := hmem
  have hsome : (st.toolStartData.reverse.find?
      (fun kv => kv.2.toolName = toolName)).isSome := by
    rw [List.find?_isSome]
    exact ⟨kv0, List.mem_reverse.mpr hkv0mem, by simp [hkv0p]⟩
  obtain ⟨kv, hfind⟩ := Option.isSome_iff_exists.mp hsome
  obtain ⟨r1, r2, hrev, hpkv, hr1⟩ := find?_decomp hfind
  have hdecomp : st.toolStartData = r2.reverse ++ kv :: r1.reverse := by
    have := congrArg List.reverse hrev
    simpa using this
  have hp : kv.2.toolName = toolName := by simpa using hpkv
  refine ⟨kv.1, kv.2, r2.reverse, r1.reverse, by simpa using hdecomp, hp, ?_, ?_, ?_⟩
  · intro x hx
    have hx1 : x ∈ r1 := List.mem_reverse.mp hx
    have := hr1 x hx1
    simpa using this
  · rw [handleToolEnd_match σ sessionId toolName e st kv hst hfind]
    have hfilter : st.toolStartData.filter (fun kv2 => kv2.1 ≠ kv.1)
        = r2.reverse ++ r1.reverse := by
      rw [hdecomp] at hnodup ⊢
      rw [List.filter_append, List.filter_cons]
      have hknotin : kv.1 ∉ (r2.reverse.map Prod.fst)
          ∧ kv.1 ∉ (r1.reverse.map Prod.fst) := by
        simp only [List.map_append, List.map_cons, List.nodup_append] at hnodup
        obtain ⟨h1, h2, h3⟩ := hnodup
        exact ⟨fun hin => h3 hin (by simp), (List.nodup_cons.mp h2).1⟩
      rw [if_neg (by simp)]
      have hfix : ∀ (l : List (String × ToolEntry)),
          kv.1 ∉ l.map Prod.fst →
          l.filter (fun kv2 => kv2.1 ≠ kv.1) = l := by
        intro l hl
        apply List.filter_eq_self.mpr
        intro a ha
        simp only [ne_eq, decide_eq_true_eq, decide_not]
        simp only [List.mem_map] at hl
        have : a.1 ≠ kv.1 := fun hc => hl ⟨a, ha, hc⟩
        simp [this]
      rw [hfix _ hknotin.1, hfix _ hknotin.2]
    rw [hfilter]
  · rw [handleToolEnd_match σ sessionId toolName e st kv hst hfind]
    rw [List.filter_cons, if_pos (by rfl)]
    rw [commitRecs_filter]

/-- Concrete store for the C2 witness: session `s` holds two in-flight
`Read` entries, stored for turns 1 and 2. -/
def storeC2 : Store := fun s =>
  if s = "s" then
    some ⟨⟨2, 0, 2, 0, 0⟩,
      [("s_Read_1", ⟨"Read", 1, 10, 4⟩), ("s_Read_2", ⟨"Read", 2, 20, 6⟩)], 2⟩
  else none

/-- Concrete event for the C2 witness: `Read` finishes at time 50. -/
def eventC2 : Event :=
  ⟨some "PostToolUse", "s", some "Read", 2, none, 8, none, none, none,
   false, 0, 0, none, none, 50⟩

/-- Witness for C2: with two in-flight `Read` entries, the later one
(key `s_Read_2`, start time 20, turn 2, input size 6) is matched and
removed; one tool record with duration 30 is emitted. -/
theorem claim_C2_tool_end_matching_witness :
    ∃ k en l1 l2,
      [("s_Read_1", (⟨"Read", 1, 10, 4⟩ : ToolEntry)),
       ("s_Read_2", (⟨"Read", 2, 20, 6⟩ : ToolEntry))] = l1 ++ (k, en) :: l2 ∧
      en.toolName = "Read" ∧
      (∀ kv ∈ l2, kv.2.toolName ≠ "Read") ∧
      (handleToolEnd storeC2 "s" "Read" eventC2).1
        = storeC2.save "s" ⟨⟨2, 0, 2, 0, 0⟩, l1 ++ l2, 2⟩ ∧
      (handleToolEnd storeC2 "s" "Read" eventC2).2.filter isToolRecord
        = [Record.tool "s" en.turnNumber "Read" en.startTime 50 true
            (50 - en.startTime) en.inputSize 8] :=
  claim_C2_tool_end_matching storeC2 "s" "Read" eventC2
    ⟨⟨2, 0, 2, 0, 0⟩,
      [("s_Read_1", ⟨"Read", 1, 10, 4⟩), ("s_Read_2", ⟨"Read", 2, 20, 6⟩)], 2⟩
    rfl (by decide) ⟨("s_Read_2", ⟨"Read", 2, 20, 6⟩), by decide, rfl⟩

/-! ## C1: turn numbers form 1, 2, 3, … across fresh invocations -/

/-- The turn number a session's state file records (0 when no file
exists yet). -/
def turnNumOf (σ : Store) (s : String) : Nat :=
  match σ s with
  | none => 0
  | some st => st.currentTurn.number

/-- Every existing state file carries a turn number that is at least 1
(true of every reachable store: `handleTurnStart` writes 1 or
increments). -/
def NumInv (σ : Store) : Prop :=
  ∀ t st, σ t = some st → 1 ≤ st.currentTurn.number

theorem numInv_empty : NumInv emptyStore := by
  intro t st h
  simp [emptyStore] at h

theorem turnNumOf_save_ne {σ : Store} {sid : String} {st : SessionState}
    {s : String} (h : s ≠ sid) : turnNumOf (σ.save sid st) s = turnNumOf σ s := by
  simp [turnNumOf, Store.save, h]

theorem turnNumOf_save_eq {σ : Store} {sid : String} {st : SessionState} :
    turnNumOf (σ.save sid st) sid = st.currentTurn.number := by
  simp [turnNumOf, Store.save]

theorem numInv_save {σ : Store} {sid : String} {st : SessionState}
    (hinv : NumInv σ) (hst : 1 ≤ st.currentTurn.number) :
    NumInv (σ.save sid st) := by
  intro t st' h
  by_cases ht : t = sid
  · subst ht
    rw [Store.save, if_pos rfl] at h
    cases h
    exact hst
  · rw [Store.save, if_neg ht] at h
    exact hinv t st' h

theorem range'_glue {a b c : Nat} (h1 : a ≤ b) (h2 : b ≤ c) :
    List.range' a (b - a) ++ List.range' b (c - b) = List.range' a (c - a) := by
  have h := List.range'_append a (b - a) (c - b) 1
  rw [show a + 1 * (b - a) = b by omega] at h
  rw [show (c - b) + (b - a) = c - a by omega] at h
  exact h

theorem turnNumbersFor_append (s : String) (l1 l2 : List Record) :
    turnNumbersFor s (l1 ++ l2) = turnNumbersFor s l1 ++ turnNumbersFor s l2 := by
  simp [turnNumbersFor]

theorem turnNumbersFor_gitOpRecords (s sid : String) (cmd : String) :
    turnNumbersFor s (gitOpRecords sid cmd) = [] := by
  unfold gitOpRecords
  cases gitOpType cmd <;> simp [turnNumbersFor]

theorem turnNumbersFor_bashGitRecords (s sid t : String) (e : Event) :
    turnNumbersFor s (bashGitRecords sid t e) = [] := by
  unfold bashGitRecords
  by_cases hb : t = "Bash"
  · rw [if_pos hb]
    cases e.command with
    | none => rfl
    | some cmd =>
      by_cases hc : cmd ≠ ""
      · show turnNumbersFor s (if cmd ≠ "" then gitOpRecords sid cmd else []) = []
        rw [if_pos hc]
        exact turnNumbersFor_gitOpRecords s sid cmd
      · show turnNumbersFor s (if cmd ≠ "" then gitOpRecords sid cmd else []) = []
        rw [if_neg hc]
        rfl
  · rw [if_neg hb]
    rfl

theorem turnNumbersFor_promptRecords (s sid : String) (n : Nat) (e : Event) :
    turnNumbersFor s (promptRecords sid n e) = [] := by
  unfold promptRecords
  cases e.prompt with
  | none => rfl
  | some p =>
    by_cases hp : p.trim ≠ ""
    · show turnNumbersFor s (if p.trim ≠ "" then
        [Record.prompt sid n (categorizePrompt p).1 (categorizePrompt p).2
          p.trim.length e.now] else []) = []
      rw [if_pos hp]
      rfl
    · show turnNumbersFor s (if p.trim ≠ "" then
        [Record.prompt sid n (categorizePrompt p).1 (categorizePrompt p).2
          p.trim.length e.now] else []) = []
      rw [if_neg hp]
      rfl

theorem handleTurnStart_none (σ : Store) (sid : String) (e : Event)
    (hst : σ sid = none) :
    handleTurnStart σ sid e =
      (σ.save sid ⟨⟨1, e.now, 0, 0, 0⟩, [], 0⟩, promptRecords sid 1 e) := by
  unfold handleTurnStart
  rw [hst]
  rfl

theorem handleTurnStart_some (σ : Store) (sid : String) (e : Event)
    (st : SessionState) (hst : σ sid = some st) :
    handleTurnStart σ sid e =
      (σ.save sid ⟨⟨st.currentTurn.number + 1, e.now, 0, 0,
          st.currentTurn.totalSessionCost⟩, st.toolStartData, st.toolCounter⟩,
       Record.turn sid st.currentTurn.number st.currentTurn.startTime e.now
           st.currentTurn.toolCount st.currentTurn.turnCost false
         :: promptRecords sid (st.currentTurn.number + 1) e) := by
  unfold handleTurnStart
  rw [hst]
  rfl

theorem turnNumbersFor_cons_turn_eq (s : String) (n : Nat) (a b : Int)
    (c : Nat) (q : ℚ) (i : Bool) (rest : List Record) :
    turnNumbersFor s (Record.turn s n a b c q i :: rest)
      = n :: turnNumbersFor s rest := by
  simp [turnNumbersFor, List.filterMap_cons]

theorem turnNumbersFor_cons_turn_ne {sid s : String} (h : sid ≠ s) (n : Nat)
    (a b : Int) (c : Nat) (q : ℚ) (i : Bool) (rest : List Record) :
    turnNumbersFor s (Record.turn sid n a b c q i :: rest)
      = turnNumbersFor s rest := by
  simp [turnNumbersFor, List.filterMap_cons, h]

theorem handleTurnStart_step (σ : Store) (sid : String) (e : Event)
    (hinv : NumInv σ) :
    NumInv (handleTurnStart σ sid e).1 ∧
    ∀ s, max 1 (turnNumOf σ s) ≤ max 1 (turnNumOf (handleTurnStart σ sid e).1 s) ∧
      turnNumbersFor s (handleTurnStart σ sid e).2 =
        List.range' (max 1 (turnNumOf σ s))
          (max 1 (turnNumOf (handleTurnStart σ sid e).1 s)
            - max 1 (turnNumOf σ s)) := by
  cases hst : σ sid with
  | none =>
    rw [handleTurnStart_none σ sid e hst]
    refine ⟨numInv_save hinv (by norm_num), fun s => ?_⟩
    by_cases hs : s = sid
    · subst hs
      rw [turnNumOf_save_eq]
      have h0 : turnNumOf σ s = 0 := by simp [turnNumOf, hst]
      rw [h0, turnNumbersFor_promptRecords]
      simp
    · rw [turnNumOf_save_ne hs, turnNumbersFor_promptRecords]
      simp
  | some st =>
    have hn : 1 ≤ st.currentTurn.number := hinv sid st hst
    rw [handleTurnStart_some σ sid e st hst]
    refine ⟨numInv_save hinv (by show 1 ≤ st.currentTurn.number + 1; omega),
      fun s => ?_⟩
    by_cases hs : s = sid
    · subst hs
      have h1 : turnNumOf (σ.save s
          ⟨⟨st.currentTurn.number + 1, e.now, 0, 0,
            st.currentTurn.totalSessionCost⟩, st.toolStartData, st.toolCounter⟩) s
          = st.currentTurn.number + 1 := by
        rw [turnNumOf_save_eq]
      have h0 : turnNumOf σ s = st.currentTurn.number := by simp [turnNumOf, hst]
      rw [h1, h0, Nat.max_eq_right hn, Nat.max_eq_right (by omega)]
      refine ⟨by omega, ?_⟩
      rw [show st.currentTurn.number + 1 - st.currentTurn.number = 1 by omega]
      rw [turnNumbersFor_cons_turn_eq, turnNumbersFor_promptRecords]
      simp [List.range']
    · rw [turnNumOf_save_ne hs]
      refine ⟨le_refl _, ?_⟩
      have hne : sid ≠ s := fun hc => hs hc.symm
      rw [turnNumbersFor_cons_turn_ne hne, turnNumbersFor_promptRecords]
      simp

theorem turnNumbersFor_cons_tool (s sid : String) (n : Nat) (t : String)
    (a b : Int) (su : Bool) (pt : Int) (i o : Nat) (rest : List Record) :
    turnNumbersFor s (Record.tool sid n t a b su pt i o :: rest)
      = turnNumbersFor s rest := by
  simp [turnNumbersFor, List.filterMap_cons]

theorem turnNumbersFor_commitRecs (s sid : String) (b : Prop) [Decidable b]
    (cmd? : Option String) :
    turnNumbersFor s (if b then
       match cmd? with
       | some cmd =>
         if cmd ≠ "" ∧ containsGitVerb "commit" cmd then [Record.commit sid]
         else []
       | none => []
     else []) = [] := by
  cases cmd? with
  | none => split <;> rfl
  | some cmd =>
    by_cases hb : b
    · rw [if_pos hb]
      show turnNumbersFor s (if cmd ≠ "" ∧ containsGitVerb "commit" cmd then
        [Record.commit sid] else []) = []
      by_cases hc : cmd ≠ "" ∧ containsGitVerb "commit" cmd
      · rw [if_pos hc]; rfl
      · rw [if_neg hc]; rfl
    · rw [if_neg hb]; rfl

theorem handleToolStart_none (σ : Store) (sid t : String) (e : Event)
    (hst : σ sid = none) :
    handleToolStart σ sid t e = (σ, bashGitRecords sid t e) := by
  unfold handleToolStart
  rw [hst]

theorem handleToolStart_some (σ : Store) (sid t : String) (e : Event)
    (st : SessionState) (hst : σ sid = some st) :
    handleToolStart σ sid t e =
      (σ.save sid ⟨⟨st.currentTurn.number, st.currentTurn.startTime,
          st.currentTurn.toolCount + 1, st.currentTurn.turnCost,
          st.currentTurn.totalSessionCost⟩,
        st.toolStartData
          ++ [(sid ++ "_" ++ t ++ "_" ++ toString (st.toolCounter + 1),
            ⟨t, getCurrentTurnNumber (some st), e.now, e.tool_input_size⟩)],
        st.toolCounter + 1⟩,
       bashGitRecords sid t e) := by
  unfold handleToolStart
  rw [hst]

theorem handleToolStart_preserves (σ : Store) (sid t : String) (e : Event)
    (hinv : NumInv σ) :
    NumInv (handleToolStart σ sid t e).1 ∧
    (∀ s, turnNumOf (handleToolStart σ sid t e).1 s = turnNumOf σ s) ∧
    (∀ s, turnNumbersFor s (handleToolStart σ sid t e).2 = []) := by
  cases hst : σ sid with
  | none =>
    rw [handleToolStart_none σ sid t e hst]
    exact ⟨hinv, fun s => rfl, fun s => turnNumbersFor_bashGitRecords s sid t e⟩
  | some st =>
    rw [handleToolStart_some σ sid t e st hst]
    refine ⟨numInv_save hinv (hinv sid st hst), fun s => ?_,
      fun s => turnNumbersFor_bashGitRecords s sid t e⟩
    by_cases hs : s = sid
    · subst hs
      rw [turnNumOf_save_eq]
      simp [turnNumOf, hst]
    · exact turnNumOf_save_ne hs

theorem handleToolEnd_preserves (σ : Store) (sid t : String) (e : Event)
    (hinv : NumInv σ) :
    NumInv (handleToolEnd σ sid t e).1 ∧
    (∀ s, turnNumOf (handleToolEnd σ sid t e).1 s = turnNumOf σ s) ∧
    (∀ s, turnNumbersFor s (handleToolEnd σ sid t e).2 = []) := by
  cases hst : σ sid with
  | none =>
    have hne : handleToolEnd σ sid t e = (σ, []) := by
      unfold handleToolEnd
      rw [hst]
    rw [hne]
    exact ⟨hinv, fun s => rfl, fun s => rfl⟩
  | some st =>
    cases hfind : st.toolStartData.reverse.find?
        (fun kv => kv.2.toolName = t) with
    | none =>
      have hne : handleToolEnd σ sid t e = (σ, []) := by
        unfold handleToolEnd
        rw [hst]
        simp only [hfind]
      rw [hne]
      exact ⟨hinv, fun s => rfl, fun s => rfl⟩
    | some kv =>
      rw [handleToolEnd_match σ sid t e st kv hst hfind]
      refine ⟨numInv_save hinv (hinv sid st hst), fun s => ?_, fun s => ?_⟩
      · by_cases hs : s = sid
        · subst hs
          rw [turnNumOf_save_eq]
          simp [turnNumOf, hst]
        · exact turnNumOf_save_ne hs
      · rw [turnNumbersFor_cons_tool, turnNumbersFor_commitRecs]

theorem handleCompaction_preserves (σ : Store) (sid : String) (e : Event)
    (hinv : NumInv σ) :
    NumInv (handleCompaction σ sid e).1 ∧
    (∀ s, turnNumOf (handleCompaction σ sid e).1 s = turnNumOf σ s) ∧
    (∀ s, turnNumbersFor s (handleCompaction σ sid e).2 = []) :=
  ⟨hinv, fun _ => rfl, fun _ => rfl⟩

theorem handleSessionEnd_store (σ : Store) (sid : String) (e : Event) :
    (handleSessionEnd σ sid e).1 = σ ∨
    ∃ st q, σ sid = some st ∧
      (handleSessionEnd σ sid e).1
        = σ.save sid ⟨⟨st.currentTurn.number, st.currentTurn.startTime,
            st.currentTurn.toolCount, q, st.currentTurn.totalSessionCost + q⟩,
          st.toolStartData, st.toolCounter⟩ := by
  unfold handleSessionEnd
  cases hE : e.transcript with
  | none =>
    cases hst : σ sid with
    | none => exact Or.inl rfl
    | some st => exact Or.inl rfl
  | some entries =>
    cases hst : σ sid with
    | none => exact Or.inl rfl
    | some st =>
      cases hL : (parseTranscriptTokens entries).getLast? with
      | none => exact Or.inl (by simp only [hL])
      | some latest =>
        exact Or.inr ⟨st, latest.costs.total_cost_usd, rfl, by simp only [hL]⟩

theorem turnNumbersFor_handleSessionEnd (σ : Store) (sid : String) (e : Event)
    (s : String) : turnNumbersFor s (handleSessionEnd σ sid e).2 = [] := by
  unfold handleSessionEnd
  cases hE : e.transcript with
  | none =>
    cases hst : σ sid with
    | none => rfl
    | some st => rfl
  | some entries =>
    cases hst : σ sid with
    | none => rfl
    | some st =>
      cases hL : (parseTranscriptTokens entries).getLast? with
      | none => simp only [hL]; rfl
      | some latest => simp only [hL]; rfl

theorem handleSessionEnd_preserves (σ : Store) (sid : String) (e : Event)
    (hinv : NumInv σ) :
    NumInv (handleSessionEnd σ sid e).1 ∧
    (∀ s, turnNumOf (handleSessionEnd σ sid e).1 s = turnNumOf σ s) ∧
    (∀ s, turnNumbersFor s (handleSessionEnd σ sid e).2 = []) := by
  rcases handleSessionEnd_store σ sid e with h | ⟨st, q, hst, h⟩
  · exact ⟨by rw [h]; exact hinv, fun s => by rw [h],
      fun s => turnNumbersFor_handleSessionEnd σ sid e s⟩
  · refine ⟨?_, fun s => ?_, fun s => turnNumbersFor_handleSessionEnd σ sid e s⟩
    · rw [h]
      exact numInv_save hinv (hinv sid st hst)
    · rw [h]
      by_cases hs : s = sid
      · subst hs
        rw [turnNumOf_save_eq]
        simp [turnNumOf, hst]
      · exact turnNumOf_save_ne hs

theorem step_of_preserves {σ : Store} {p : Store × List Record}
    (hinv2 : NumInv p.1)
    (h2 : ∀ s, turnNumOf p.1 s = turnNumOf σ s)
    (h3 : ∀ s, turnNumbersFor s p.2 = []) :
    NumInv p.1 ∧
    ∀ s, max 1 (turnNumOf σ s) ≤ max 1 (turnNumOf p.1 s) ∧
      turnNumbersFor s p.2 =
        List.range' (max 1 (turnNumOf σ s))
          (max 1 (turnNumOf p.1 s) - max 1 (turnNumOf σ s)) := by
  refine ⟨hinv2, fun s => ?_⟩
  rw [h2 s, h3 s]
  simp

theorem processEvent_step (σ : Store) (e : Event) (hinv : NumInv σ) :
    NumInv (processEvent σ e).1 ∧
    ∀ s, max 1 (turnNumOf σ s) ≤ max 1 (turnNumOf (processEvent σ e).1 s) ∧
      turnNumbersFor s (processEvent σ e).2 =
        List.range' (max 1 (turnNumOf σ s))
          (max 1 (turnNumOf (processEvent σ e).1 s) - max 1 (turnNumOf σ s)) := by
  by_cases hv : validateEventData e = true
  case neg =>
    have hid : processEvent σ e = (σ, []) := by
      unfold processEvent
      rw [if_neg hv]
    rw [hid]
    exact ⟨hinv, fun s => ⟨le_refl _, by simp [turnNumbersFor]⟩⟩
  case pos =>
    cases hk : e.hook_event_name with
    | none => rw [validateEventData, hk] at hv; cases hv
    | some name =>
      have hmem : name ∈ validEvents := by
        by_contra hnm
        rw [validateEventData, hk] at hv
        by_cases hne : name = "" <;> simp [hne, hnm] at hv
      simp only [validEvents, List.mem_cons, List.mem_singleton,
        List.not_mem_nil, or_false] at hmem
      rcases hmem with rfl | rfl | rfl | rfl | rfl
      · -- UserPromptSubmit
        have hpe : processEvent σ e = handleTurnStart σ e.session_id e := by
          unfold processEvent
          rw [if_pos hv, if_pos hk]
        rw [hpe]
        exact handleTurnStart_step σ e.session_id e hinv
      · -- PreToolUse
        cases ht : e.tool_name with
        | none =>
          rw [validateEventData, hk, ht] at hv
          simp [validEvents, jsStrFalsy] at hv
        | some t =>
          by_cases hte : t = ""
          · subst hte
            rw [validateEventData, hk, ht] at hv
            simp [validEvents, jsStrFalsy] at hv
          · have hpe : processEvent σ e = handleToolStart σ
                (if e.session_id = "" then generateSessionId e.now
                 else e.session_id) t e := by
              unfold processEvent
              rw [if_pos hv, if_neg (by simp [hk]),
                if_pos (⟨hk, by simp [jsStrFalsy, ht, hte]⟩ :
                  e.hook_event_name = some "PreToolUse" ∧
                    ¬ jsStrFalsy e.tool_name), ht]
              rfl
            rw [hpe]
            obtain ⟨h1, h2, h3⟩ := handleToolStart_preserves σ
              (if e.session_id = "" then generateSessionId e.now
               else e.session_id) t e hinv
            exact step_of_preserves h1 h2 h3
      · -- PostToolUse
        cases ht : e.tool_name with
        | none =>
          rw [validateEventData, hk, ht] at hv
          simp [validEvents, jsStrFalsy] at hv
        | some t =>
          by_cases hte : t = ""
          · subst hte
            rw [validateEventData, hk, ht] at hv
            simp [validEvents, jsStrFalsy] at hv
          · have hpe : processEvent σ e = handleToolEnd σ e.session_id t e := by
              unfold processEvent
              rw [if_pos hv, if_neg (by simp [hk]), if_neg (by simp [hk]),
                if_pos (⟨hk, by simp [jsStrFalsy, ht, hte]⟩ :
                  e.hook_event_name = some "PostToolUse" ∧
                    ¬ jsStrFalsy e.tool_name), ht]
              rfl
            rw [hpe]
            obtain ⟨h1, h2, h3⟩ := handleToolEnd_preserves σ e.session_id t e hinv
            exact step_of_preserves h1 h2 h3
      · -- PreCompact
        have hpe : processEvent σ e = handleCompaction σ e.session_id e := by
          unfold processEvent
          rw [if_pos hv, if_neg (by simp [hk]), if_neg (by simp [hk]),
            if_neg (by simp [hk]), if_pos hk]
        rw [hpe]
        obtain ⟨h1, h2, h3⟩ := handleCompaction_preserves σ e.session_id e hinv
        exact step_of_preserves h1 h2 h3
      · -- Stop
        have hpe : processEvent σ e = handleSessionEnd σ e.session_id e := by
          unfold processEvent
          rw [if_pos hv, if_neg (by simp [hk]), if_neg (by simp [hk]),
            if_neg (by simp [hk]), if_neg (by simp [hk]), if_pos hk]
        rw [hpe]
        obtain ⟨h1, h2, h3⟩ := handleSessionEnd_preserves σ e.session_id e hinv
        exact step_of_preserves h1 h2 h3

theorem processTrace_turn (events : List Event) : ∀ (σ : Store), NumInv σ →
    NumInv (processTrace σ events).1 ∧
    ∀ s, max 1 (turnNumOf σ s) ≤ max 1 (turnNumOf (processTrace σ events).1 s) ∧
      turnNumbersFor s (processTrace σ events).2 =
        List.range' (max 1 (turnNumOf σ s))
          (max 1 (turnNumOf (processTrace σ events).1 s)
            - max 1 (turnNumOf σ s)) := by
  induction events with
  | nil =>
    intro σ hinv
    exact ⟨hinv, fun s => ⟨le_refl _, by simp [turnNumbersFor, processTrace]⟩⟩
  | cons e rest ih =>
    intro σ hinv
    obtain ⟨h1, hstep⟩ := processEvent_step σ e hinv
    obtain ⟨h2, htrace⟩ := ih (processEvent σ e).1 h1
    have hfst : (processTrace σ (e :: rest)).1
        = (processTrace (processEvent σ e).1 rest).1 := rfl
    have hsnd : (processTrace σ (e :: rest)).2
        = (processEvent σ e).2 ++ (processTrace (processEvent σ e).1 rest).2 := rfl
    refine ⟨by rw [hfst]; exact h2, fun s => ?_⟩
    obtain ⟨hle1, hrec1⟩ := hstep s
    obtain ⟨hle2, hrec2⟩ := htrace s
    refine ⟨by rw [hfst]; exact le_trans hle1 hle2, ?_⟩
    rw [hsnd, hfst, turnNumbersFor_append, hrec1, hrec2]
    exact range'_glue hle1 hle2

/-- C1: for every sequence of events (each processed by a fresh
invocation that reloads the per-session state file) and every session,
the turn numbers of the emitted Turn records for that session form the
gapless sequence 1, 2, 3, …: the emitted list equals
`List.range' 1 k` for its own length `k`. -/
theorem claim_C1_turn_numbers_consecutive (events : List Event) (s : String) :
    turnNumbersFor s (processTrace emptyStore events).2 =
      List.range' 1 (turnNumbersFor s (processTrace emptyStore events).2).length := by
  obtain ⟨h1, h⟩ := processTrace_turn events emptyStore numInv_empty
  obtain ⟨hle, hrec⟩ := h s
  have hm : max 1 (turnNumOf emptyStore s) = 1 := rfl
  rw [hm] at hrec
  rw [hrec, List.length_range']


